import Mathlib

/-!
# Verification of the pytp backup pipeline (`src/pytp/tape_backup.py`, `tape_metadata.py`)

Shallow embedding of the data model and operations of the pytp tape-backup core:

* Python `dict`s are modelled as association lists (`List (κ × α)`) together with a
  `dget` lookup (first matching key) and a `dinsert` update that replaces the value in
  place when the key is present and appends otherwise — exactly the observable
  semantics of `d[k] = v` followed by lookups.
* The attribute dictionaries stored in backup histories are modelled by `Attrs`, a
  record of optional fields, one per key the program ever writes
  (`type`, `mtime`, `size`, `target`, `valid`); an absent field is `none`, which is
  also what Python's `dict.get` returns for a missing key.
* Directory scan results (`scan_directory`) always carry a `type` tag and the full
  attribute set for that type, so they are modelled by the honest sum `FileState`.
* File-system side effects (`os.remove`, `os.path.exists`) are modelled by explicit
  disk states (`List String` of existing paths).
* The concurrent pipeline of `backup_directories_tar` is modelled as a state machine:
  every mutation of the shared queues happens inside one of the critical sections of
  the source (`generated_lock` and `to_write_lock` held together), so an interleaving
  is a sequence of atomic `PipeEvent`s applied to `PipelineState`.

The file is laid out as definitions first (all translated from the source, except
where a doc comment says `Modelled from the spec:`), then the theorems.
-/

namespace Pytp

/-! ## Python dict as an association list -/

/-- Lookup of a key in an association list: the first matching pair wins
(Python dict lookup; dicts built by `dinsert` have unique keys). -/
def dget {κ α : Type} [DecidableEq κ] : List (κ × α) → κ → Option α
  | [], _ => none
  | (k, v) :: rest, k' => if k' = k then some v else dget rest k'

/-- `d[k] = v` on a Python dict: replace the value of the existing key in place,
otherwise append the new pair at the end (insertion order is preserved). -/
def dinsert {κ α : Type} [DecidableEq κ] : List (κ × α) → κ → α → List (κ × α)
  | [], k, v => [(k, v)]
  | (k₀, v₀) :: rest, k, v =>
      if k₀ = k then (k₀, v) :: rest else (k₀, v₀) :: dinsert rest k v

/-! ## Data model: scan results, stored attribute dicts, backup generations -/

/-- One entry of a `scan_directory` snapshot (`tape_backup.py:573-605`): a regular
file with its `st_mtime` and `st_size`, or a symlink with its `readlink` target
(`none` when `readlink` failed) and an existence flag.  Modification times are
modelled by `Int`; the claims only ever compare them for equality. -/
inductive FileState : Type
  | file (mtime : Int) (size : Nat)
  | symlink (target : Option String) (valid : Bool)
  deriving DecidableEq, Repr

instance : Inhabited FileState := ⟨FileState.file 0 0⟩

/-- An attribute dictionary as persisted inside a backup generation's `files` map.
Each field models one possible key of the Python dict; a `none` field is an absent
key, which is also the result Python's `dict.get` yields for it.  The program
writes two shapes: scan-shaped dicts (`type`/`mtime`/`size` resp.
`type`/`target`/`valid`) and the type-less file shape `mtime`/`size` produced by
the full branch of `generate_tar_file`. -/
structure Attrs : Type where
  type : Option String := none
  mtime : Option Int := none
  size : Option Nat := none
  /-- key present ↦ `some (stored value)`: the stored value itself may be
  Python `None` (a broken symlink's target). -/
  target : Option (Option String) := none
  valid : Option Bool := none
  deriving DecidableEq, Repr

/-- Python truthiness of an attribute dict: `not last_attrs` is true exactly when
the dict is empty, i.e. every key is absent. -/
def Attrs.isEmptyDict (a : Attrs) : Bool :=
  a.type.isNone && a.mtime.isNone && a.size.isNone && a.target.isNone && a.valid.isNone

/-- `dict.get` on the `target` key: `None` both when the key is absent and when the
stored value is `None`; Python cannot distinguish the two through `get`. -/
def Attrs.getTarget (a : Attrs) : Option String :=
  a.target.getD none

/-- The attribute dict stored for a scan result by the incremental branches
(`incremental_files = ...` comprehension, `tape_backup.py:128`): the scan dict
itself, including its `type` key. -/
def toAttrs : FileState → Attrs
  | .file m sz => { type := some "file", mtime := some m, size := some sz }
  | .symlink t v => { type := some "symlink", target := some t, valid := some v }

/-- The attribute dict stored by the full branch of `generate_tar_file`
(`tape_backup.py:132-141`): `mtime`/`size` for a file (the `type` key is
dropped), `type`/`target`/`valid` for a symlink. -/
def fullAttrs : FileState → Attrs
  | .file m sz => { mtime := some m, size := some sz }
  | .symlink t v => { type := some "symlink", target := some t, valid := some v }

/-- One generation record of a backup history document, modelling the Python entry
dicts.  `generate_tar_file` writes `type`/`files` or just `files`;
`TapeMetadata.prepare_backup_entry` adds `label` and `timestamp`;
`update_tape_position_and_save` later adds `tape_position`.  Absent keys are
`none`. -/
structure BackupEntry : Type where
  type : Option String := none
  label : Option String := none
  timestamp : Option String := none
  files : List (String × Attrs) := []
  tape_position : Option Nat := none
  deriving DecidableEq, Repr

instance : Inhabited BackupEntry := ⟨{}⟩

/-! ## ChangeDetector (`tape_backup.py:608-667`, identical text in
`tape_metadata.py:267-328`) -/

/-- `combined_state.update(entry['files'])` for one entry: fold the entry's pairs
into the accumulated dict, later pairs overriding. -/
def dict_update (m : List (String × Attrs)) (fs : List (String × Attrs)) :
    List (String × Attrs) :=
  fs.foldl (fun acc kv => dinsert acc kv.1 kv.2) m

/-- `get_combined_backup_state` (`tape_backup.py:642-667`): start from an empty
dict and `update` it with every generation's `files` map in history order. -/
def get_combined_backup_state (backup_history : List BackupEntry) :
    List (String × Attrs) :=
  backup_history.foldl (fun combined_state entry => dict_update combined_state entry.files) []

/-- The per-path test of `get_changed_files_list` (`tape_backup.py:623-631`):
`not last_attrs or last_attrs.get(..) != attrs[..]` on the branch selected by the
scan entry's type.  `last` is `combined_state.get(filepath)`; a `none`
short-circuits the Python `or` before any `.get` call, and an empty dict is falsy
as well. -/
def changedCheck (last : Option Attrs) : FileState → Bool
  | .file m sz =>
      match last with
      | none => true
      | some la => la.isEmptyDict || la.mtime != some m || la.size != some sz
  | .symlink t v =>
      match last with
      | none => true
      | some la => la.isEmptyDict || la.getTarget != t || la.valid != some v

/-- `get_changed_files_list` (`tape_backup.py:608-639`), with the directory scan
(`self.scan_directory(directory)`) replaced by its result `current_state`: collect,
in snapshot order, every path whose attributes fail the comparison against the
combined history state.  Paths only in history are never visited (the loop ranges
over the fresh snapshot's items only). -/
def get_changed_files_list (current_state : List (String × FileState))
    (backup_history : List BackupEntry) : List String :=
  let combined_state := get_combined_backup_state backup_history
  (current_state.filter
      (fun pa => changedCheck (dget combined_state pa.1) pa.2)).map (fun pa => pa.1)

/-- The spec's description of the merge (`combinedState`, spec §4.2): the value of a
path is the one recorded by the last generation whose `files` map contains it
(within one generation, by its last pair) — last-write-wins. -/
def lastWriteWinsLookup (history : List BackupEntry) (p : String) : Option Attrs :=
  history.reverse.findSome? (fun e => dget e.files.reverse p)

/-- The spec's description of a changed path (`changedFiles`, spec §4.2): absent
from the combined state, or a regular file whose recorded mtime or size differs,
or a symlink whose recorded target or validity differs. -/
def changedSpec (last : Option Attrs) : FileState → Prop
  | .file m sz =>
      last = none ∨ ∃ la, last = some la ∧ (la.mtime ≠ some m ∨ la.size ≠ some sz)
  | .symlink t v =>
      last = none ∨ ∃ la, last = some la ∧ (la.getTarget ≠ t ∨ la.valid ≠ some v)

/-! ## Incremental and full passes of `generate_tar_file` (`tape_backup.py:87-147`) -/

/-- `incremental_files = {filepath: current_state[filepath] for filepath in
changed_files}` (`tape_backup.py:128`): every changed path mapped to its scan
attributes; the Python indexing never fails because changed paths come from the
snapshot itself. -/
def incremental_files (current_state : List (String × FileState))
    (changed_files : List String) : List (String × Attrs) :=
  changed_files.map (fun p => (p, toAttrs ((dget current_state p).getD default)))

/-- The incremental generation entry `{'type': 'incremental', 'files':
incremental_files}` (`tape_backup.py:129`). -/
def incremental_entry (current_state : List (String × FileState))
    (changed_files : List String) : BackupEntry :=
  { type := some "incremental", files := incremental_files current_state changed_files }

/-- The history handling of one incremental `generate_tar_file` pass
(`tape_backup.py:121-147`): empty change set → skip, nothing written; otherwise
append the incremental generation and persist the document. -/
def incremental_pass (current_state : List (String × FileState))
    (history : List BackupEntry) : List BackupEntry :=
  let changed_files := get_changed_files_list current_state history
  if changed_files.isEmpty then history
  else history ++ [incremental_entry current_state changed_files]

/-- The full-backup history persistence of `generate_tar_file`
(`tape_backup.py:130-147`): build the full entry from the scan, reset
`backup_history` to `[]` (discarding `loaded_history`, the document loaded at
`tape_backup.py:118`), append the entry, and `json.dump` the resulting list over
the stored document.  Returns the document as stored after the dump. -/
def full_backup_persist (current_state : List (String × FileState))
    (loaded_history : List BackupEntry) : List BackupEntry :=
  let backup_entry : BackupEntry :=
    { files := current_state.map (fun pa => (pa.1, fullAttrs pa.2)) }
  -- `backup_history = []  # Reset history for a full backup`
  let backup_history : List BackupEntry := []
  let _ := loaded_history
  backup_history ++ [backup_entry]

/-! ## TapeMetadata (`tape_metadata.py`) -/

/-- Replace the last element of a list (Python `xs[-1] = ...` followed by reading
the whole list back). -/
def setLast {α : Type} (f : α → α) : List α → List α
  | [] => []
  | [a] => [f a]
  | a :: b :: rest => a :: setLast f (b :: rest)

/-- The `backup_histories` dict of `TapeMetadata`: directory ↦ its history. -/
abbrev Histories := List (String × List BackupEntry)

/-- `TapeMetadata.update_tape_position_and_save` (`tape_metadata.py:108-118`): if
`directory` is a key of `backup_histories` with a non-empty history, set the last
entry's `tape_position` and persist the dict; otherwise do nothing. -/
def update_tape_position_and_save (backup_histories : Histories) (directory : String)
    (tape_position : Nat) : Histories :=
  match dget backup_histories directory with
  | some h =>
      if h.isEmpty then backup_histories
      else
        dinsert backup_histories directory
          (setLast (fun e => { e with tape_position := some tape_position }) h)
  | none => backup_histories

/-- `TapeMetadata.prepare_backup_entry` (`tape_metadata.py:61-105`), with the
directory scan replaced by its result `current_state` and the history document by
its loaded value: returns (needs_backup, entry, the directory's history after the
call).  The incremental skip returns `(False, {})` and leaves the history alone;
a full pass resets the history to the single new entry; tape positions are never
touched here. -/
def prepare_backup_entry (current_state : List (String × FileState))
    (history : List BackupEntry) (incremental : Bool) (label : Option String)
    (timestamp : String) : Bool × BackupEntry × List BackupEntry :=
  if incremental then
    let changed_files := get_changed_files_list current_state history
    if changed_files.isEmpty then (false, default, history)
    else
      let backup_entry : BackupEntry :=
        { type := some "incremental", label := label, timestamp := some timestamp,
          files := incremental_files current_state changed_files }
      (true, backup_entry, history ++ [backup_entry])
  else
    let backup_entry : BackupEntry :=
      { type := some "full", label := label, timestamp := some timestamp,
        files := current_state.map (fun pa => (pa.1, toAttrs pa.2)) }
    (true, backup_entry, [backup_entry])

/-- The condition a directory's stored history must satisfy before its write: it
exists, is non-empty, and its newest generation has no `tape_position` yet
(exactly how `prepare_backup_entry` leaves it). -/
def lastPosUnset : Option (List BackupEntry) → Bool
  | some h =>
      match h.getLast? with
      | some e => e.tape_position.isNone
      | none => false
  | none => false

/-- Modelled from the spec: the TapeWriter step that records medium positions is
not in this snapshot of the sources — `tape_operations.backup_directories`
(`tape_operations.py:689`) instantiates `TapeBackup` with
`(tape_ops, device_path, block_size, tar_dir, snapshot_dir, library_name, label,
job, strategy, ..., use_double_buffer, low_water_mark)`, a newer constructor than
the `TapeBackup` under `src/`, and the `TapeMetadata` collaborators
(`prepare_backup_entry`, `update_tape_position_and_save`) have no caller under
`src/`.  Spec §4.5: "Before invoking the transfer tool, query the device
collaborator for current medium position and write it into the corresponding
BackupGeneration, then persist via MetadataStore"; §6: `currentPosition()` returns
the device file number, which advances by one file marker per written archive.
`write_queue` drains the ready archives' directories in order: for each one it
reads the device position immediately before the transfer, persists it through the
source's `update_tape_position_and_save`, then performs the transfer.  It returns
the final histories and the trace of (directory, position read immediately before
its write). -/
def write_queue (pos : Nat) : List String → Histories → Histories × List (String × Nat)
  | [], backup_histories => (backup_histories, [])
  | d :: rest, backup_histories =>
      let hs := update_tape_position_and_save backup_histories d pos
      let res := write_queue (pos + 1) rest hs
      (res.1, (d, pos) :: res.2)

/-! ## Paths (`os.path.basename` / `os.path.join` as the program uses them) -/

/-- `os.path.basename`: everything after the last `/` (empty for a trailing
slash).  Computed as a character fold that restarts at every separator, which
yields exactly the suffix after the last `/`. -/
def basename (path : String) : String :=
  String.mk (path.toList.foldl (fun acc c => if c = '/' then [] else acc ++ [c]) [])

/-- `os.path.join(a, b)` restricted to two components: an absolute `b`
(`b.startswith('/')`, i.e. its first character is the separator) wins; otherwise
a separator is inserted unless `a` already ends with one (`a.endswith('/')`,
i.e. its last character is the separator) or `a` is empty. -/
def path_join (a b : String) : String :=
  if b.toList.head? = some '/' then b
  else if a = "" ∨ a.toList.getLast? = some '/' then a ++ b
  else a ++ "/" ++ b

/-- The archive path of a directory: `os.path.join(self.tar_dir,
dir_name + ".tar")` with `dir_name = os.path.basename(directory)`
(`tape_backup.py:113-114`; the same formula builds the expected-order queue at
`tape_backup.py:392`). -/
def tar_path_for (tar_dir directory : String) : String :=
  path_join tar_dir (basename directory ++ ".tar")

/-- `TapeBackup.get_json_filename` (`tape_backup.py:687-710`): snapshot dir,
optional label prefix (skipped when the label is Python-falsy, i.e. `None` or the
empty string), directory basename, `_backup.json`. -/
def get_json_filename (snapshot_dir directory : String) (label : Option String) :
    String :=
  let dir_name := basename directory
  let labelPre :=
    match label with
    | some l => if l = "" then "" else l ++ "_"
    | none => ""
  path_join snapshot_dir (labelPre ++ dir_name ++ "_backup.json")

/-- `TapeMetadata.get_json_filename` (`tape_metadata.py:142-165`): same shape with
the job name as the prefix. -/
def metadata_get_json_filename (snapshot_dir directory : String) (job : Option String) :
    String :=
  let dir_name := basename directory
  let jobPre :=
    match job with
    | some j => if j = "" then "" else j ++ "_"
    | none => ""
  path_join snapshot_dir (jobPre ++ dir_name ++ "_backup.json")

/-! ## The tar/dd pipeline as a state machine (`tape_backup.py:87-201, 278-411`) -/

/-- The shared queues of `TapeBackup` (`tape_backup.py:74-82`), plus `released`, a
history variable (not a field of the Python object) recording the index of every
archive appended to `tars_to_write`, in append order: the order in which the
ordering buffer hands archives to the writer. -/
structure PipelineState : Type where
  tars_to_be_generated : List (Nat × String)
  tars_generating : List String
  tars_generated : List (Nat × String)
  tars_to_write : List String
  all_tars_generated : Bool
  running : Bool
  released : List Nat
  deriving DecidableEq, Repr

/-- `check_and_move_to_write` (`tape_backup.py:298-324`), executed with
`generated_lock` and `to_write_lock` held: if directories are still expected, find
the first generated archive whose index equals the head expectation; move its path
to `tars_to_write`, remove the pair from `tars_generated`, and pop the head of
`tars_to_be_generated`.  The `released` history variable records the moved
index. -/
def check_and_move_to_write (s : PipelineState) : PipelineState :=
  match s.tars_to_be_generated with
  | [] => s
  | (expected_index, _expected_tar) :: rest =>
      match s.tars_generated.find? (fun g => g.1 == expected_index) with
      | some g =>
          { s with
            tars_to_write := s.tars_to_write ++ [g.2]
            tars_generated := s.tars_generated.erase g
            tars_to_be_generated := rest
            released := s.released ++ [g.1] }
      | none => s

/-- One atomic transition of the pipeline; each event is one critical section (or
lock-free step) of the source, so any thread interleaving is a sequence of these.
`generated index tar_path` is a producer's append to `tars_generated` under
`generated_lock` (`tape_backup.py:167-168`).  `complete index tar_path` is the
full producer completion (`tape_backup.py:165-173`): the append, one
`check_and_move_to_write`, then setting `all_tars_generated` when exactly one
expectation is left (the length is read after the move); interleavings that
separate the append from the check are sequences using `generated` and `check`.
`skip` is the incremental no-change path (`tape_backup.py:115-126`): the tar path
was added to `tars_generating` and the thread returns without touching any other
queue.  `check` is one round of `continuously_check_and_move`
(`tape_backup.py:278-295`).  `write` is the writer popping the oldest ready
archive (`tape_backup.py:191-200`).  `join` is the orchestrator setting
`all_tars_generated` after all producers joined (`tape_backup.py:407`). -/
inductive PipeEvent : Type
  | generated (index : Nat) (tar_path : String)
  | complete (index : Nat) (tar_path : String)
  | skip (tar_path : String)
  | check
  | write
  | join
  deriving DecidableEq, Repr

/-- Apply one event to the pipeline state. -/
def pipe_step (s : PipelineState) : PipeEvent → PipelineState
  | .generated index tar_path =>
      { s with tars_generated := s.tars_generated ++ [(index, tar_path)] }
  | .complete index tar_path =>
      let s := check_and_move_to_write
        { s with tars_generated := s.tars_generated ++ [(index, tar_path)] }
      if s.tars_to_be_generated.length = 1 then { s with all_tars_generated := true }
      else s
  | .skip tar_path => { s with tars_generating := s.tars_generating ++ [tar_path] }
  | .check => check_and_move_to_write s
  | .write => { s with tars_to_write := s.tars_to_write.tail }
  | .join => { s with all_tars_generated := true }

/-- The initial state of `backup_directories_tar` (`tape_backup.py:392`):
`tars_to_be_generated = [(index, tar_dir/basename.tar) for index, dir in
enumerate(directories)]`, everything else empty, `running = True`. -/
def init_pipeline (tar_dir : String) (directories : List String) : PipelineState :=
  { tars_to_be_generated :=
      directories.enum.map (fun id => (id.1, tar_path_for tar_dir id.2))
    tars_generating := []
    tars_generated := []
    tars_to_write := []
    all_tars_generated := false
    running := true
    released := [] }

/-- Run the pipeline over a sequence of events (one interleaving of the producer,
reconciliation and writer threads). -/
def run_pipeline (s : PipelineState) (events : List PipeEvent) : PipelineState :=
  events.foldl pipe_step s

/-- The loop guard of `continuously_check_and_move` (`tape_backup.py:293`):
`while not self.all_tars_generated or self.tars_generated`. -/
def check_loop_condition (s : PipelineState) : Bool :=
  !s.all_tars_generated || !s.tars_generated.isEmpty

/-! ## Cancellation cleanup (`tape_backup.py:713-749`) -/

/-- An element of `tars_generating.union(set(tars_generated), set(tars_to_write))`
(`tape_backup.py:725`): `tars_generating` and `tars_to_write` contribute path
strings, but `tars_generated` holds `(index, tar_path)` tuples, so its set
contributes tuples. -/
inductive TrackedItem : Type
  | path (p : String)
  | pair (index : Nat) (p : String)
  deriving DecidableEq, Repr

/-- The loop body of `cleanup_temp_files` (`tape_backup.py:725-727`) over one
enumeration of the union set, acting on the disk (the list of existing paths).
`os.path.exists` on a string is a membership test and `os.remove` deletes the
path; `os.path.exists` on a tuple calls `os.stat` with a tuple, which raises
`TypeError` (not caught by `genericpath.exists`, which only swallows `OSError`
and `ValueError`), aborting the loop.  Returns the disk when the loop stopped and
whether a `TypeError` escaped. -/
def cleanup_temp_files : List TrackedItem → List String → List String × Bool
  | [], disk => (disk, false)
  | .path p :: rest, disk =>
      cleanup_temp_files rest (if p ∈ disk then disk.erase p else disk)
  | .pair _ _ :: _, disk => (disk, true)

/-- The three tracked collections at cancellation time, as `exit_handler` sees
them. -/
structure CleanupState : Type where
  tars_generating : List String
  tars_generated : List (Nat × String)
  tars_to_write : List String
  running : Bool
  deriving DecidableEq, Repr

/-- One enumeration of `tars_generating.union(set(tars_generated),
set(tars_to_write))`: a Python set iterates in an unspecified order, so this fixes
one; the theorems below use it only where the union has at most one element, where
every enumeration coincides. -/
def tracked_items (s : CleanupState) : List TrackedItem :=
  s.tars_generating.map TrackedItem.path ++
    s.tars_generated.map (fun g => TrackedItem.pair g.1 g.2) ++
    s.tars_to_write.map TrackedItem.path

/-- `exit_handler` (`tape_backup.py:730-749`): set `running` to `False`, then run
`cleanup_temp_files`.  Returns the state after the handler together with the
cleanup outcome (final disk, whether a `TypeError` escaped). -/
def exit_handler (s : CleanupState) (disk : List String) :
    CleanupState × (List String × Bool) :=
  let s := { s with running := false }
  (s, cleanup_temp_files (tracked_items s) disk)

/-! ## Writing one archive to tape (`tape_backup.py:203-275`) -/

/-- Observable outcome of one transfer-tool invocation on the local state. -/
structure TapeWriteResult : Type where
  disk : List String
  error_echoed : Bool
  deriving DecidableEq, Repr

/-- `write_to_tape_tar` (`tape_backup.py:203-240`), with the external `mbuffer`
pipeline replaced by its observable return code: wait for the tool, echo an error
message iff the return code is non-zero, then `os.remove(tar_path)` — the removal
sits outside every conditional. -/
def write_to_tape_tar (returncode : Int) (tar_path : String) (disk : List String) :
    TapeWriteResult :=
  let error_echoed := returncode != 0
  { disk := disk.erase tar_path, error_echoed := error_echoed }

/-- `write_to_tape_dd` (`tape_backup.py:243-275`): run `dd` (its return code is
never inspected), then `os.remove(tar_path)`. -/
def write_to_tape_dd (returncode : Int) (tar_path : String) (disk : List String) :
    TapeWriteResult :=
  let _ := returncode
  { disk := disk.erase tar_path, error_echoed := false }

/-! ## Theorems: dictionary laws -/

theorem dget_append {κ α : Type} [DecidableEq κ] (a b : List (κ × α)) (k : κ) :
    dget (a ++ b) k = (dget a k).orElse (fun _ => dget b k) := by
  induction a with
  | nil => simp [dget, Option.orElse]
  | cons kv rest ih =>
      by_cases h : k = kv.1
      · simp [dget, h, Option.orElse]
      · simp [dget, h, ih]

theorem dget_dinsert_self {κ α : Type} [DecidableEq κ] (m : List (κ × α)) (k : κ) (v : α) :
    dget (dinsert m k v) k = some v := by
  induction m with
  | nil => simp [dinsert, dget]
  | cons kv rest ih =>
      obtain ⟨k₀, v₀⟩ := kv
      by_cases h : k₀ = k
      · simp [dinsert, h, dget]
      · have hne : ¬ k = k₀ := fun hEq => h hEq.symm
        simp [dinsert, h, dget, hne, ih]

theorem dget_dinsert_ne {κ α : Type} [DecidableEq κ] (m : List (κ × α)) (k k' : κ) (v : α)
    (h : k' ≠ k) : dget (dinsert m k v) k' = dget m k' := by
  induction m with
  | nil => simp [dinsert, dget, h]
  | cons kv rest ih =>
      obtain ⟨k₀, v₀⟩ := kv
      by_cases h₀ : k₀ = k
      · have hne : ¬ k' = k₀ := fun hEq => h (hEq.trans h₀)
        simp [dinsert, h₀, dget, hne, h]
      · by_cases hq : k' = k₀
        · simp [dinsert, h₀, dget, hq]
        · simp [dinsert, h₀, dget, hq, ih]

/-! ## Theorems: combined backup state -/

theorem dget_dict_update (m fs : List (String × Attrs)) (p : String) :
    dget (dict_update m fs) p = (dget fs.reverse p).orElse (fun _ => dget m p) := by
  induction fs generalizing m with
  | nil => simp [dict_update, dget, Option.orElse]
  | cons kv rest ih =>
      obtain ⟨k, v⟩ := kv
      show dget (dict_update (dinsert m k v) rest) p = _
      rw [ih]
      rw [List.reverse_cons, dget_append]
      cases hr : dget rest.reverse p with
      | some a => simp [Option.orElse]
      | none =>
          by_cases hp : p = k
          · subst hp
            simp [Option.orElse, dget, dget_dinsert_self]
          · simp [Option.orElse, dget, hp, dget_dinsert_ne m k p v hp]

theorem get_combined_backup_state_append (h : List BackupEntry) (e : BackupEntry) :
    get_combined_backup_state (h ++ [e]) =
      dict_update (get_combined_backup_state h) e.files := by
  simp [get_combined_backup_state, List.foldl_append]

theorem dget_combined_eq_lastWriteWins (history : List BackupEntry) (p : String) :
    dget (get_combined_backup_state history) p = lastWriteWinsLookup history p := by
  induction history using List.reverseRecOn with
  | nil => simp [get_combined_backup_state, lastWriteWinsLookup, dget]
  | append_singleton h e ih =>
      rw [get_combined_backup_state_append, dget_dict_update, ih]
      simp only [lastWriteWinsLookup, List.reverse_append, List.reverse_cons,
        List.reverse_nil, List.nil_append, List.cons_append, List.findSome?]
      cases dget e.files.reverse p with
      | some a => simp [Option.orElse]
      | none => simp [Option.orElse]

/-! ## Theorems: change detection -/

theorem Attrs.isEmptyDict_fields (la : Attrs) (h : la.isEmptyDict = true) :
    la.mtime = none ∧ la.size = none ∧ la.getTarget = none ∧ la.valid = none := by
  simp only [Attrs.isEmptyDict, Bool.and_eq_true, Option.isNone_iff_eq_none] at h
  obtain ⟨⟨⟨⟨-, h2⟩, h3⟩, h4⟩, h5⟩ := h
  exact ⟨h2, h3, by simp [Attrs.getTarget, h4], h5⟩

theorem changedCheck_eq_true_iff (last : Option Attrs) (st : FileState) :
    changedCheck last st = true ↔ changedSpec last st := by
  cases st with
  | file m sz =>
      cases last with
      | none => simp [changedCheck, changedSpec]
      | some la =>
          simp only [changedCheck, changedSpec, Bool.or_eq_true, bne_iff_ne]
          constructor
          · rintro ((he | h1) | h2)
            · exact Or.inr ⟨la, rfl, Or.inl (by simp [(Attrs.isEmptyDict_fields la he).1])⟩
            · exact Or.inr ⟨la, rfl, Or.inl h1⟩
            · exact Or.inr ⟨la, rfl, Or.inr h2⟩
          · rintro (h | ⟨la', hEq, h1 | h2⟩)
            · simp at h
            · cases hEq
              exact Or.inl (Or.inr h1)
            · cases hEq
              exact Or.inr h2
  | symlink t v =>
      cases last with
      | none => simp [changedCheck, changedSpec]
      | some la =>
          simp only [changedCheck, changedSpec, Bool.or_eq_true, bne_iff_ne]
          constructor
          · rintro ((he | h1) | h2)
            · exact Or.inr ⟨la, rfl, Or.inr (by simp [(Attrs.isEmptyDict_fields la he).2.2.2])⟩
            · exact Or.inr ⟨la, rfl, Or.inl h1⟩
            · exact Or.inr ⟨la, rfl, Or.inr h2⟩
          · rintro (h | ⟨la', hEq, h1 | h2⟩)
            · simp at h
            · cases hEq
              exact Or.inl (Or.inr h1)
            · cases hEq
              exact Or.inr h2

theorem mem_get_changed_files_list (current_state : List (String × FileState))
    (backup_history : List BackupEntry) (p : String) :
    p ∈ get_changed_files_list current_state backup_history ↔
      ∃ st, (p, st) ∈ current_state ∧
        changedCheck (dget (get_combined_backup_state backup_history) p) st = true := by
  simp only [get_changed_files_list, List.mem_map, List.mem_filter]
  constructor
  · rintro ⟨⟨q, st⟩, ⟨hmem, hchk⟩, rfl⟩
    exact ⟨st, hmem, hchk⟩
  · rintro ⟨st, hmem, hchk⟩
    exact ⟨(p, st), ⟨hmem, hchk⟩, rfl⟩

theorem dget_map_pair {α : Type} (l : List String) (f : String → α) (p : String) :
    dget (l.map (fun q => (q, f q))) p = if p ∈ l then some (f p) else none := by
  induction l with
  | nil => simp [dget]
  | cons q rest ih =>
      by_cases h : p = q
      · subst h
        simp [dget]
      · simp [dget, h, ih, List.mem_cons]

theorem dget_of_mem_nodup (current_state : List (String × FileState))
    (hnd : (current_state.map Prod.fst).Nodup) (p : String) (st : FileState)
    (hmem : (p, st) ∈ current_state) : dget current_state p = some st := by
  induction current_state with
  | nil => cases hmem
  | cons kv rest ih =>
      obtain ⟨k, v⟩ := kv
      simp only [List.map_cons, List.nodup_cons] at hnd
      rcases List.mem_cons.mp hmem with hEq | hmem'
      · cases hEq
        simp [dget]
      · have hpk : p ≠ k := by
          intro hpk
          subst hpk
          exact hnd.1 (List.mem_map.mpr ⟨(p, st), hmem', rfl⟩)
        simp [dget, hpk, ih hnd.2 hmem']

theorem changedCheck_toAttrs (st : FileState) :
    changedCheck (some (toAttrs st)) st = false := by
  cases st with
  | file m sz => simp [changedCheck, toAttrs, Attrs.isEmptyDict]
  | symlink t v => simp [changedCheck, toAttrs, Attrs.isEmptyDict, Attrs.getTarget]

/-- C6: For every backup history, `combinedState` (the source's
`get_combined_backup_state`, a left-to-right `dict.update` fold over the
generations' file maps) agrees on every path with the last-write-wins lookup: the
value of a path is the one recorded by the last generation containing it, so a
path occurring in generation i and a later generation j is mapped to generation
j's attributes only. -/
theorem claim_C6_combined_state_last_write_wins :
    ∀ (history : List BackupEntry) (p : String),
      dget (get_combined_backup_state history) p = lastWriteWinsLookup history p :=
  dget_combined_eq_lastWriteWins

/-- C5: `get_changed_files_list` returns exactly the paths of the fresh snapshot
that are absent from the combined history state, or are regular files whose
recorded mtime or size differs, or are symlinks whose recorded target or validity
differs (`changedSpec`); paths present in history but absent from the snapshot are
never returned (membership requires a snapshot entry). -/
theorem claim_C5_changed_files_exactly :
    ∀ (current_state : List (String × FileState)) (backup_history : List BackupEntry)
      (p : String),
      p ∈ get_changed_files_list current_state backup_history ↔
        ∃ st, (p, st) ∈ current_state ∧
          changedSpec (dget (get_combined_backup_state backup_history) p) st := by
  intro current_state backup_history p
  rw [mem_get_changed_files_list]
  constructor
  · rintro ⟨st, hmem, hchk⟩
    exact ⟨st, hmem, (changedCheck_eq_true_iff _ st).mp hchk⟩
  · rintro ⟨st, hmem, hspec⟩
    exact ⟨st, hmem, (changedCheck_eq_true_iff _ st).mpr hspec⟩

theorem filter_eq_nil_of_false {α : Type} (l : List α) (f : α → Bool)
    (h : ∀ a ∈ l, f a = false) : l.filter f = [] := by
  induction l with
  | nil => rfl
  | cons a rest ih =>
      have ha := h a (List.mem_cons_self a rest)
      simp [List.filter, ha, ih (fun b hb => h b (List.mem_cons_of_mem a hb))]

theorem changed_eq_nil_of_all_false (current_state : List (String × FileState))
    (backup_history : List BackupEntry)
    (h : ∀ pa ∈ current_state,
      changedCheck (dget (get_combined_backup_state backup_history) pa.1) pa.2 = false) :
    get_changed_files_list current_state backup_history = [] := by
  simp only [get_changed_files_list]
  rw [filter_eq_nil_of_false _ _ h]
  rfl

/-- C7: Running an incremental pass (which, on a non-empty change set, appends a
generation recording the changed paths' current scan attributes) and then
recomputing the changed-file list against the same snapshot yields the empty
list: a second incremental pass with no filesystem change in between finds
nothing to back up.  The hypothesis states that the snapshot is a dict (no
duplicate paths), which `scan_directory` guarantees. -/
theorem claim_C7_incremental_rerun_empty :
    ∀ (current_state : List (String × FileState)) (history : List BackupEntry),
      (current_state.map Prod.fst).Nodup →
      get_changed_files_list current_state (incremental_pass current_state history) = [] := by
  intro c h hnd
  cases hch : get_changed_files_list c h with
  | nil =>
      simp [incremental_pass, hch]
  | cons q qs =>
      have hpass : incremental_pass c h =
          h ++ [incremental_entry c (get_changed_files_list c h)] := by
        simp [incremental_pass, hch]
      rw [hpass]
      apply changed_eq_nil_of_all_false
      rintro ⟨p, st⟩ hmem
      have hcomb :
          dget (get_combined_backup_state
            (h ++ [incremental_entry c (get_changed_files_list c h)])) p =
          (dget (incremental_files c (get_changed_files_list c h)).reverse p).orElse
            (fun _ => dget (get_combined_backup_state h) p) := by
        rw [get_combined_backup_state_append, dget_dict_update]
        rfl
      have hrev :
          (incremental_files c (get_changed_files_list c h)).reverse =
            (get_changed_files_list c h).reverse.map
              (fun q => (q, toAttrs ((dget c q).getD default))) := by
        simp [incremental_files]
      by_cases hp : p ∈ get_changed_files_list c h
      · have hlook : dget (incremental_files c (get_changed_files_list c h)).reverse p =
            some (toAttrs ((dget c p).getD default)) := by
          rw [hrev, dget_map_pair]
          simp [hp]
        have hst : dget c p = some st := dget_of_mem_nodup c hnd p st hmem
        rw [hcomb, hlook]
        simp only [Option.orElse, hst, Option.getD]
        exact changedCheck_toAttrs st
      · have hlook : dget (incremental_files c (get_changed_files_list c h)).reverse p =
            none := by
          rw [hrev, dget_map_pair]
          simp [hp]
        rw [hcomb, hlook]
        simp only [Option.orElse]
        cases hchk : changedCheck (dget (get_combined_backup_state h) p) st with
        | false => rfl
        | true =>
            exact absurd ((mem_get_changed_files_list c h p).mpr ⟨st, hmem, hchk⟩) hp

/-- C7 witness: a concrete snapshot with distinct paths, run against an empty
prior history. -/
theorem claim_C7_witness :
    (([("/d/f", FileState.file 3 4), ("/d/g", FileState.symlink (some "x") true)].map
        Prod.fst).Nodup) ∧
      get_changed_files_list
        [("/d/f", FileState.file 3 4), ("/d/g", FileState.symlink (some "x") true)]
        (incremental_pass
          [("/d/f", FileState.file 3 4), ("/d/g", FileState.symlink (some "x") true)]
          []) = [] :=
  ⟨by decide,
    claim_C7_incremental_rerun_empty
      [("/d/f", FileState.file 3 4), ("/d/g", FileState.symlink (some "x") true)]
      [] (by decide)⟩

/-! ## Theorems: full-backup persistence (C4) -/

/-- C4 counterexample: the claim "after a full backup, the stored history document
still contains every earlier generation record" is false at a concrete input: a
stored history holding one incremental generation, then a full backup of a
one-file snapshot — the prior generation is no longer in the stored document. -/
theorem claim_C4_counterexample :
    ({ type := some "incremental",
       files := [("old", { type := some "file", mtime := some 5, size := some 6 })] }
        : BackupEntry) ∈
      [({ type := some "incremental",
          files := [("old", { type := some "file", mtime := some 5, size := some 6 })] }
        : BackupEntry)] ∧
    ({ type := some "incremental",
       files := [("old", { type := some "file", mtime := some 5, size := some 6 })] }
        : BackupEntry) ∉
      full_backup_persist [("/d/f", FileState.file 1 2)]
        [({ type := some "incremental",
            files := [("old", { type := some "file", mtime := some 5, size := some 6 })] }
          : BackupEntry)] := by
  constructor
  · exact List.mem_singleton.mpr rfl
  · decide

/-- C4 (amended): recording a full backup overwrites the stored history document
with a one-element list holding only the new full generation; previously
persisted generation records are not retained — the stored result is independent
of the loaded history (only the in-memory incremental baseline semantics matches
the original claim). -/
theorem claim_C4_amended_full_backup_overwrites :
    ∀ (current_state : List (String × FileState)) (loaded₁ loaded₂ : List BackupEntry),
      (full_backup_persist current_state loaded₁).length = 1 ∧
      full_backup_persist current_state loaded₁ =
        full_backup_persist current_state loaded₂ := by
  intro c l₁ l₂
  exact ⟨rfl, rfl⟩

/-! ## Theorems: archive removal after a write (C9) -/

theorem not_mem_erase_self_of_nodup {α : Type} [DecidableEq α] (l : List α)
    (hnd : l.Nodup) (a : α) : a ∉ l.erase a := by
  induction l with
  | nil => simp
  | cons b rest ih =>
      simp only [List.nodup_cons] at hnd
      by_cases h : b = a
      · subst h
        rw [List.erase_cons_head]
        exact hnd.1
      · rw [List.erase_cons_tail (by simp [h])]
        intro hmem
        rcases List.mem_cons.mp hmem with hEq | hmem'
        · exact h hEq.symm
        · exact ih hnd.2 hmem'

/-- C9: in the tar and dd strategies the local archive file is removed after the
transfer-tool invocation returns, unconditionally in the return code — a non-zero
exit is echoed (tar strategy) but the `os.remove` still runs, so a failed write
never leaves the local archive copy on a duplicate-free disk. -/
theorem claim_C9_archive_removed_unconditionally :
    ∀ (returncode : Int) (tar_path : String) (disk : List String),
      disk.Nodup →
      (write_to_tape_tar returncode tar_path disk).disk = disk.erase tar_path ∧
      (write_to_tape_dd returncode tar_path disk).disk = disk.erase tar_path ∧
      (write_to_tape_tar returncode tar_path disk).error_echoed = (returncode != 0) ∧
      tar_path ∉ (write_to_tape_tar returncode tar_path disk).disk ∧
      tar_path ∉ (write_to_tape_dd returncode tar_path disk).disk := by
  intro returncode tar_path disk hnd
  exact ⟨rfl, rfl, rfl, not_mem_erase_self_of_nodup disk hnd tar_path,
    not_mem_erase_self_of_nodup disk hnd tar_path⟩

/-- C9 witness: a failed transfer (return code 1) of a present archive file: the
archive is gone afterwards in both strategies. -/
theorem claim_C9_witness :
    (["/tar/a.tar"] : List String).Nodup ∧
    ((write_to_tape_tar 1 "/tar/a.tar" ["/tar/a.tar"]).disk =
        (["/tar/a.tar"] : List String).erase "/tar/a.tar" ∧
      (write_to_tape_dd 1 "/tar/a.tar" ["/tar/a.tar"]).disk =
        (["/tar/a.tar"] : List String).erase "/tar/a.tar" ∧
      (write_to_tape_tar 1 "/tar/a.tar" ["/tar/a.tar"]).error_echoed = ((1 : Int) != 0) ∧
      "/tar/a.tar" ∉ (write_to_tape_tar 1 "/tar/a.tar" ["/tar/a.tar"]).disk ∧
      "/tar/a.tar" ∉ (write_to_tape_dd 1 "/tar/a.tar" ["/tar/a.tar"]).disk) :=
  ⟨by decide,
    claim_C9_archive_removed_unconditionally 1 "/tar/a.tar" ["/tar/a.tar"] (by decide)⟩

/-! ## Theorems: path computation (C10) -/

/-- C10: the archive path and both history-document paths computed for a source
directory depend only on the directory's basename (given fixed `tar_dir`,
`snapshot_dir` and label/job): two distinct directories with equal basenames are
assigned the identical tar path and the identical backup-history JSON file, in
both `TapeBackup.get_json_filename` and `TapeMetadata.get_json_filename`. -/
theorem claim_C10_paths_depend_only_on_basename :
    ∀ (tar_dir snapshot_dir : String) (label job : Option String) (d₁ d₂ : String),
      d₁ ≠ d₂ → basename d₁ = basename d₂ →
      tar_path_for tar_dir d₁ = tar_path_for tar_dir d₂ ∧
      get_json_filename snapshot_dir d₁ label = get_json_filename snapshot_dir d₂ label ∧
      metadata_get_json_filename snapshot_dir d₁ job =
        metadata_get_json_filename snapshot_dir d₂ job := by
  intro td sd label job d₁ d₂ hne hb
  refine ⟨?_, ?_, ?_⟩ <;>
    simp [tar_path_for, get_json_filename, metadata_get_json_filename, hb]

/-- C10 witness: `/x/data` and `/y/data` are distinct directories with basename
`data`; they collide on all three computed paths. -/
theorem claim_C10_witness :
    ("/x/data" : String) ≠ "/y/data" ∧ basename "/x/data" = basename "/y/data" ∧
    (tar_path_for "/tar" "/x/data" = tar_path_for "/tar" "/y/data" ∧
      get_json_filename "/snap" "/x/data" (some "lbl") =
        get_json_filename "/snap" "/y/data" (some "lbl") ∧
      metadata_get_json_filename "/snap" "/x/data" (some "job") =
        metadata_get_json_filename "/snap" "/y/data" (some "job")) :=
  ⟨by decide, by decide,
    claim_C10_paths_depend_only_on_basename "/tar" "/snap" (some "lbl") (some "job")
      "/x/data" "/y/data" (by decide) (by decide)⟩

/-! ## Theorems: cancellation cleanup (C8) -/

/-- C8: the claim fails on the code.  `exit_handler` does set `running` to false,
but `cleanup_temp_files` iterates
`tars_generating.union(set(tars_generated), set(tars_to_write))`, and
`tars_generated` holds `(index, path)` tuples: `os.path.exists` on a tuple raises
`TypeError` (uncaught), so an archive tracked only in `tars_generated` is never
deleted.  Concrete run: `/tar/a.tar` tracked as `(0, "/tar/a.tar")` in
`tars_generated` and present on disk — the handler aborts with the exception and
the file survives. -/
theorem claim_C8_cleanup_leaves_generated_archive :
    exit_handler
        { tars_generating := [], tars_generated := [(0, "/tar/a.tar")],
          tars_to_write := [], running := true } ["/tar/a.tar"] =
      ({ tars_generating := [], tars_generated := [(0, "/tar/a.tar")],
         tars_to_write := [], running := false },
        (["/tar/a.tar"], true)) := by
  rfl

/-! ## Theorems: ordering buffer (C1) and the skip stall (C2) -/

theorem init_pipeline_queue_getElem (tar_dir : String) (directories : List String)
    (i : Nat) :
    (init_pipeline tar_dir directories).tars_to_be_generated[i]? =
      directories[i]?.map (fun d => (i, tar_path_for tar_dir d)) := by
  simp only [init_pipeline, List.getElem?_map, List.getElem?_enum]
  cases directories[i]? with
  | none => rfl
  | some d => rfl

theorem check_and_move_of_nil (s : PipelineState) (h : s.tars_to_be_generated = []) :
    check_and_move_to_write s = s := by
  unfold check_and_move_to_write
  rw [h]

theorem check_and_move_of_find_none (s : PipelineState) (ei : Nat) (et : String)
    (rest : List (Nat × String)) (h : s.tars_to_be_generated = (ei, et) :: rest)
    (hf : s.tars_generated.find? (fun g => g.1 == ei) = none) :
    check_and_move_to_write s = s := by
  unfold check_and_move_to_write
  rw [h]
  dsimp only
  rw [hf]

theorem check_and_move_of_find_some (s : PipelineState) (ei : Nat) (et : String)
    (rest : List (Nat × String)) (g : Nat × String)
    (h : s.tars_to_be_generated = (ei, et) :: rest)
    (hf : s.tars_generated.find? (fun g => g.1 == ei) = some g) :
    check_and_move_to_write s =
      { s with
        tars_to_write := s.tars_to_write ++ [g.2]
        tars_generated := s.tars_generated.erase g
        tars_to_be_generated := rest
        released := s.released ++ [g.1] } := by
  unfold check_and_move_to_write
  rw [h]
  dsimp only
  rw [hf]

theorem check_and_move_ordered (tar_dir : String) (directories : List String)
    (s : PipelineState)
    (h1 : s.released = List.range s.released.length)
    (h2 : s.tars_to_be_generated =
      ((init_pipeline tar_dir directories).tars_to_be_generated).drop s.released.length) :
    (check_and_move_to_write s).released =
        List.range (check_and_move_to_write s).released.length ∧
      (check_and_move_to_write s).tars_to_be_generated =
        ((init_pipeline tar_dir directories).tars_to_be_generated).drop
          (check_and_move_to_write s).released.length := by
  cases hq : s.tars_to_be_generated with
  | nil =>
      rw [check_and_move_of_nil s hq]
      exact ⟨h1, h2⟩
  | cons head rest =>
      obtain ⟨ei, et⟩ := head
      have hhead :
          some (ei, et) =
            directories[s.released.length]?.map
              (fun d => (s.released.length, tar_path_for tar_dir d)) := by
        rw [← init_pipeline_queue_getElem tar_dir directories s.released.length,
          ← List.head?_drop, ← h2, hq]
        rfl
      have hei : ei = s.released.length := by
        cases hd : directories[s.released.length]? with
        | none => rw [hd] at hhead; cases hhead
        | some d =>
            rw [hd] at hhead
            have h' : (ei, et) = (s.released.length, tar_path_for tar_dir d) :=
              Option.some.inj hhead
            exact congrArg Prod.fst h'
      cases hf : s.tars_generated.find? (fun g => g.1 == ei) with
      | none =>
          rw [check_and_move_of_find_none s ei et rest hq hf]
          exact ⟨h1, h2⟩
      | some g =>
          have hg : g.1 = ei := by
            have hb := List.find?_some hf
            simpa using hb
          rw [check_and_move_of_find_some s ei et rest g hq hf]
          have hlen : (s.released ++ [g.1]).length = s.released.length + 1 := by simp
          constructor
          · show s.released ++ [g.1] = List.range (s.released ++ [g.1]).length
            rw [hlen, List.range_succ, ← h1, hg, hei]
          · show rest = ((init_pipeline tar_dir directories).tars_to_be_generated).drop
              (s.released ++ [g.1]).length
            rw [hlen, ← List.tail_drop, ← h2, hq]
            rfl

theorem pipe_step_ordered (tar_dir : String) (directories : List String)
    (s : PipelineState) (ev : PipeEvent)
    (h1 : s.released = List.range s.released.length)
    (h2 : s.tars_to_be_generated =
      ((init_pipeline tar_dir directories).tars_to_be_generated).drop s.released.length) :
    (pipe_step s ev).released = List.range (pipe_step s ev).released.length ∧
      (pipe_step s ev).tars_to_be_generated =
        ((init_pipeline tar_dir directories).tars_to_be_generated).drop
          (pipe_step s ev).released.length := by
  cases ev with
  | generated index tar_path => exact ⟨h1, h2⟩
  | complete index tar_path =>
      have hmid := check_and_move_ordered tar_dir directories
        { s with tars_generated := s.tars_generated ++ [(index, tar_path)] } h1 h2
      simp only [pipe_step]
      split
      · exact hmid
      · exact hmid
  | skip tar_path => exact ⟨h1, h2⟩
  | check => exact check_and_move_ordered tar_dir directories s h1 h2
  | write => exact ⟨h1, h2⟩
  | join => exact ⟨h1, h2⟩

theorem run_pipeline_ordered (tar_dir : String) (directories : List String)
    (events : List PipeEvent) (s : PipelineState)
    (h1 : s.released = List.range s.released.length)
    (h2 : s.tars_to_be_generated =
      ((init_pipeline tar_dir directories).tars_to_be_generated).drop s.released.length) :
    (run_pipeline s events).released = List.range (run_pipeline s events).released.length ∧
      (run_pipeline s events).tars_to_be_generated =
        ((init_pipeline tar_dir directories).tars_to_be_generated).drop
          (run_pipeline s events).released.length := by
  induction events generalizing s with
  | nil => exact ⟨h1, h2⟩
  | cons e es ih =>
      have hstep := pipe_step_ordered tar_dir directories s e h1 h2
      exact ih (pipe_step s e) hstep.1 hstep.2

/-- C1: for every directory list and every interleaving of producer completions,
skips, reconciliation rounds and writer pops, the sequence of indices the ordering
buffer hands to the writer (`released`, the order of appends to `tars_to_write`)
is exactly `0, 1, 2, …`: a gap-free, strictly increasing prefix of the input
order.  Hence the archive of index j is never released before the archives of
every earlier index that produces one, and what remains expected is always the
original queue's suffix. -/
theorem claim_C1_release_order_strictly_increasing :
    ∀ (tar_dir : String) (directories : List String) (events : List PipeEvent),
      (run_pipeline (init_pipeline tar_dir directories) events).released =
          List.range
            (run_pipeline (init_pipeline tar_dir directories) events).released.length ∧
        (run_pipeline (init_pipeline tar_dir directories) events).tars_to_be_generated =
          ((init_pipeline tar_dir directories).tars_to_be_generated).drop
            (run_pipeline (init_pipeline tar_dir directories) events).released.length := by
  intro tar_dir directories events
  exact run_pipeline_ordered tar_dir directories events (init_pipeline tar_dir directories)
    (by simp [init_pipeline]) (by simp [init_pipeline])

theorem run_pipeline_replicate_check_fix (s : PipelineState)
    (h : check_and_move_to_write s = s) (m : Nat) :
    run_pipeline s (List.replicate m PipeEvent.check) = s := by
  induction m with
  | zero => rfl
  | succ m ih =>
      show run_pipeline (pipe_step s PipeEvent.check) (List.replicate m PipeEvent.check) = s
      have hstep : pipe_step s PipeEvent.check = s := h
      rw [hstep, ih]

/-- C2: the claim fails on the code.  With `directories = [/data/d0, /data/d1]`,
incremental mode, no changes in `d0` (its producer takes the skip path of
`generate_tar_file`, which returns without retiring index 0) and a completed
archive for `d1`: after both producers finish, the orchestrator joins, and any
number of further reconciliation rounds, nothing is ever released, `d1`'s archive
sits in `tars_generated` forever, and the guard of `continuously_check_and_move`
stays true — the skipped head slot blocks every later directory and the run never
terminates. -/
theorem claim_C2_skip_blocks_later_directories :
    ∀ (m : Nat),
      (run_pipeline (init_pipeline "/tar" ["/data/d0", "/data/d1"])
            ([PipeEvent.skip (tar_path_for "/tar" "/data/d0"),
              PipeEvent.complete 1 (tar_path_for "/tar" "/data/d1"),
              PipeEvent.join] ++ List.replicate m PipeEvent.check)).released = [] ∧
        (run_pipeline (init_pipeline "/tar" ["/data/d0", "/data/d1"])
            ([PipeEvent.skip (tar_path_for "/tar" "/data/d0"),
              PipeEvent.complete 1 (tar_path_for "/tar" "/data/d1"),
              PipeEvent.join] ++ List.replicate m PipeEvent.check)).tars_to_write = [] ∧
        (run_pipeline (init_pipeline "/tar" ["/data/d0", "/data/d1"])
            ([PipeEvent.skip (tar_path_for "/tar" "/data/d0"),
              PipeEvent.complete 1 (tar_path_for "/tar" "/data/d1"),
              PipeEvent.join] ++ List.replicate m PipeEvent.check)).tars_generated =
          [(1, tar_path_for "/tar" "/data/d1")] ∧
        check_loop_condition
          (run_pipeline (init_pipeline "/tar" ["/data/d0", "/data/d1"])
            ([PipeEvent.skip (tar_path_for "/tar" "/data/d0"),
              PipeEvent.complete 1 (tar_path_for "/tar" "/data/d1"),
              PipeEvent.join] ++ List.replicate m PipeEvent.check)) = true := by
  intro m
  rw [show ∀ (a b : List PipeEvent) (s : PipelineState),
        run_pipeline s (a ++ b) = run_pipeline (run_pipeline s a) b from
      fun a b s => List.foldl_append ..]
  have hfix : check_and_move_to_write
      (run_pipeline (init_pipeline "/tar" ["/data/d0", "/data/d1"])
        [PipeEvent.skip (tar_path_for "/tar" "/data/d0"),
          PipeEvent.complete 1 (tar_path_for "/tar" "/data/d1"),
          PipeEvent.join]) =
      run_pipeline (init_pipeline "/tar" ["/data/d0", "/data/d1"])
        [PipeEvent.skip (tar_path_for "/tar" "/data/d0"),
          PipeEvent.complete 1 (tar_path_for "/tar" "/data/d1"),
          PipeEvent.join] := by decide
  rw [run_pipeline_replicate_check_fix _ hfix m]
  decide

/-! ## Theorems: tape-position recording (C3) -/

theorem setLast_eq {α : Type} (f : α → α) :
    ∀ (h : List α) (e : α), h.getLast? = some e → setLast f h = h.dropLast ++ [f e]
  | [], e, hl => by simp at hl
  | [a], e, hl => by
      have : a = e := by simpa using hl
      subst this
      rfl
  | a :: b :: rest, e, hl => by
      have hl' : (b :: rest).getLast? = some e := by
        rw [← List.getLast?_cons_cons (a := a)]
        exact hl
      show a :: setLast f (b :: rest) = (a :: b :: rest).dropLast ++ [f e]
      rw [setLast_eq f (b :: rest) e hl']
      rfl

theorem isEmpty_false_of_getLast? {α : Type} (h : List α) (e : α)
    (hl : h.getLast? = some e) : h.isEmpty = false := by
  cases h with
  | nil => simp at hl
  | cons a rest => rfl

theorem update_tape_position_of_getLast (hs : Histories) (d : String)
    (h : List BackupEntry) (e : BackupEntry) (pos : Nat)
    (hd : dget hs d = some h) (hl : h.getLast? = some e) :
    update_tape_position_and_save hs d pos =
      dinsert hs d (setLast (fun x => { x with tape_position := some pos }) h) := by
  unfold update_tape_position_and_save
  rw [hd]
  dsimp only
  rw [isEmpty_false_of_getLast? h e hl]
  rfl

theorem write_queue_positions (queue : List String) :
    ∀ (pos : Nat) (hs : Histories), queue.Nodup →
    (∀ d ∈ queue, lastPosUnset (dget hs d) = true) →
    (∀ (i : Nat) (d : String), queue[i]? = some d →
      (write_queue pos queue hs).2[i]? = some (d, pos + i) ∧
      ∃ h e, dget hs d = some h ∧ h.getLast? = some e ∧ e.tape_position = none ∧
        dget (write_queue pos queue hs).1 d =
          some (h.dropLast ++ [{ e with tape_position := some (pos + i) }])) ∧
    (∀ d, d ∉ queue → dget (write_queue pos queue hs).1 d = dget hs d) := by
  induction queue with
  | nil =>
      intro pos hs _ _
      constructor
      · intro i d hd
        simp at hd
      · intro d _
        rfl
  | cons d rest ih =>
      intro pos hs hnd hok
      have hdn : d ∉ rest := (List.nodup_cons.mp hnd).1
      have hrestnd : rest.Nodup := (List.nodup_cons.mp hnd).2
      -- unpack the head directory's history
      have hokd := hok d (List.mem_cons_self d rest)
      obtain ⟨h, hd, e, hl, hpos⟩ :
          ∃ h, dget hs d = some h ∧ ∃ e, h.getLast? = some e ∧ e.tape_position = none := by
        cases hdg : dget hs d with
        | none =>
            rw [hdg] at hokd
            simp [lastPosUnset] at hokd
        | some h =>
            rw [hdg] at hokd
            cases hlg : h.getLast? with
            | none => simp [lastPosUnset, hlg] at hokd
            | some e =>
                have hn : e.tape_position.isNone = true := by
                  simpa [lastPosUnset, hlg] using hokd
                exact ⟨h, rfl, e, hlg, Option.isNone_iff_eq_none.mp hn⟩
      have hupd := update_tape_position_of_getLast hs d h e pos hd hl
      set hs' := dinsert hs d
        (setLast (fun x => { x with tape_position := some pos }) h) with hhs'
      have hframe : ∀ d' ∈ rest, dget hs' d' = dget hs d' := by
        intro d' hd'
        have hne : d' ≠ d := fun hEq => hdn (hEq ▸ hd')
        exact dget_dinsert_ne hs d d' _ hne
      have hok' : ∀ d' ∈ rest, lastPosUnset (dget hs' d') = true := by
        intro d' hd'
        rw [hframe d' hd']
        exact hok d' (List.mem_cons_of_mem d hd')
      obtain ⟨ihA, ihB⟩ := ih (pos + 1) hs' hrestnd hok'
      have hwq : write_queue pos (d :: rest) hs =
          ((write_queue (pos + 1) rest hs').1,
            (d, pos) :: (write_queue (pos + 1) rest hs').2) := by
        show ((write_queue (pos + 1) rest (update_tape_position_and_save hs d pos)).1,
            (d, pos) :: (write_queue (pos + 1) rest
              (update_tape_position_and_save hs d pos)).2) = _
        rw [hupd]
      rw [hwq]
      constructor
      · intro i d' hdq
        cases i with
        | zero =>
            have hdd : d' = d := (by simpa using hdq : d = d').symm
            subst hdd
            constructor
            · simp
            · refine ⟨h, e, hd, hl, hpos, ?_⟩
              have hlast : dget (write_queue (pos + 1) rest hs').1 d' = dget hs' d' :=
                ihB d' hdn
              rw [hlast, hhs', dget_dinsert_self,
                setLast_eq (fun x => { x with tape_position := some pos }) h e hl]
              norm_num
        | succ i' =>
            have hdq' : rest[i']? = some d' := by simpa using hdq
            obtain ⟨htr, h', e', hd', hl', hpos', hfin⟩ := ihA i' d' hdq'
            have hmem : d' ∈ rest := List.getElem?_mem hdq'
            have hdhs : dget hs' d' = dget hs d' := hframe d' hmem
            have harith : pos + 1 + i' = pos + (i' + 1) := by omega
            constructor
            · rw [List.getElem?_cons_succ, htr, harith]
            · refine ⟨h', e', ?_, hl', hpos', ?_⟩
              · rw [← hdhs]
                exact hd'
              · rw [hfin, harith]
      · intro d' hd'
        have hne : d' ≠ d := fun hEq => hd' (hEq ▸ List.mem_cons_self d rest)
        have hnr : d' ∉ rest := fun hmem => hd' (List.mem_cons_of_mem d hmem)
        rw [ihB d' hnr, hhs', dget_dinsert_ne hs d d' _ hne]

/-- C3: for every run of the (spec-modelled) writer over a duplicate-free queue of
directories whose stored histories each end in a generation without a
`tape_position` (as `prepare_backup_entry` leaves them), every written
generation's `tape_position` is set exactly once: the final history of the i-th
directory is its initial history with only the last entry changed, from no
position to exactly the device position read immediately before that directory's
transfer (`pos + i`, matching the trace entry), all other histories and entries
untouched; and the producer-side `prepare_backup_entry` never sets a
`tape_position` (its entries carry none). -/
theorem claim_C3_tape_position_set_once_at_write :
    ∀ (pos : Nat) (queue : List String) (backup_histories : Histories),
      queue.Nodup →
      (∀ d ∈ queue, lastPosUnset (dget backup_histories d) = true) →
      ((∀ (i : Nat) (d : String), queue[i]? = some d →
          (write_queue pos queue backup_histories).2[i]? = some (d, pos + i) ∧
          ∃ h e, dget backup_histories d = some h ∧ h.getLast? = some e ∧
            e.tape_position = none ∧
            dget (write_queue pos queue backup_histories).1 d =
              some (h.dropLast ++ [{ e with tape_position := some (pos + i) }])) ∧
        (∀ d, d ∉ queue → dget (write_queue pos queue backup_histories).1 d =
          dget backup_histories d)) ∧
      (∀ (current_state : List (String × FileState)) (history : List BackupEntry)
          (incremental : Bool) (label : Option String) (timestamp : String),
        (prepare_backup_entry current_state history incremental
            label timestamp).2.1.tape_position = none) := by
  intro pos queue hs hnd hok
  refine ⟨write_queue_positions queue pos hs hnd hok, ?_⟩
  intro cs h inc lb ts
  cases inc with
  | false => rfl
  | true =>
      simp only [prepare_backup_entry, if_true]
      split
      · rfl
      · rfl

/-- C3 witness: one directory `a` with a single position-less full generation in
store, written at device position 7. -/
theorem claim_C3_witness :
    (["a"] : List String).Nodup ∧
    (∀ d ∈ (["a"] : List String),
      lastPosUnset (dget [("a", [({ type := some "full" } : BackupEntry)])] d) = true) ∧
    (((∀ (i : Nat) (d : String), (["a"] : List String)[i]? = some d →
        (write_queue 7 ["a"] [("a", [({ type := some "full" } : BackupEntry)])]).2[i]? =
          some (d, 7 + i) ∧
        ∃ h e, dget [("a", [({ type := some "full" } : BackupEntry)])] d = some h ∧
          h.getLast? = some e ∧ e.tape_position = none ∧
          dget (write_queue 7 ["a"]
              [("a", [({ type := some "full" } : BackupEntry)])]).1 d =
            some (h.dropLast ++ [{ e with tape_position := some (7 + i) }])) ∧
      (∀ d, d ∉ (["a"] : List String) →
        dget (write_queue 7 ["a"] [("a", [({ type := some "full" } : BackupEntry)])]).1 d =
          dget [("a", [({ type := some "full" } : BackupEntry)])] d)) ∧
      (∀ (current_state : List (String × FileState)) (history : List BackupEntry)
          (incremental : Bool) (label : Option String) (timestamp : String),
        (prepare_backup_entry current_state history incremental
            label timestamp).2.1.tape_position = none)) :=
  ⟨by decide, by decide,
    claim_C3_tape_position_set_once_at_write 7 ["a"]
      [("a", [({ type := some "full" } : BackupEntry)])] (by decide) (by decide)⟩

end Pytp
